import Mathlib

/-!
Verification of the onecrawl acquisition engine.

This file embeds, as executable Lean definitions, the parts of the source
that the verified properties are about:

* `src/adapters/fetch-pool/index.ts` — the `LruCache` class (TTL cache with
  evict-oldest-10%-by-insertion-timestamp).
* `src/adapters/playwright/scraper.adapter.ts` — the `LRUCache` class (which,
  unlike the fetch-pool one, re-inserts an entry on `get`), the `scrape`
  method's cache/backend control flow, and the `scrapeMany` window/retry loop.
* the fetch-pool retry helper `scrapeWithRetry`.
* `src/adapters/cdp/chrome-finder.ts` — the `CDPPage` wire-protocol client
  (`send` / `handleMessage` / `close` and the `pendingCommands` table).
* the `WebActionManager.getOrCreateSession` check-then-create control flow,
  as a small-step program so that cooperative interleavings can be examined.

JavaScript `Map` objects are modelled as insertion-ordered association lists:
`Map.prototype.set` updates an existing binding in place or appends a fresh
one at the end, `delete` removes the binding, and iteration order is list
order — exactly the guarantees of the JS specification.  Timestamps are
naturals (milliseconds); `Date.now() - t > ttl` is rendered as
`now > t + ttl`, which agrees with the JS comparison for every natural input
(a negative JS difference is never `> ttl` for the nonnegative `ttl`s used).
-/

namespace OneCrawl

/-- Binding lookup in a JS `Map` modelled as an association list
(first match; keys are unique in a real `Map`). -/
def mapGet {κ β : Type} [DecidableEq κ] : List (κ × β) → κ → Option β
  | [], _ => none
  | (k', v') :: rest, k => if k' = k then some v' else mapGet rest k

/-- JS `Map.prototype.set`: update an existing binding in place,
or append a fresh binding at the end (insertion order). -/
def mapSet {κ β : Type} [DecidableEq κ] : List (κ × β) → κ → β → List (κ × β)
  | [], k, v => [(k, v)]
  | (k', v') :: rest, k, v =>
    if k' = k then (k, v) :: rest else (k', v') :: mapSet rest k v

/-- JS `Map.prototype.delete`: remove the binding of `k` (the first match;
a real `Map` holds at most one). -/
def mapDelete {κ β : Type} [DecidableEq κ] : List (κ × β) → κ → List (κ × β)
  | [], _ => []
  | (k', v') :: rest, k =>
    if k' = k then rest else (k', v') :: mapDelete rest k

/-- The keys of a modelled JS `Map`, in insertion order. -/
def mapKeys {κ β : Type} (l : List (κ × β)) : List κ := l.map Prod.fst

/-- Well-formedness of a modelled JS `Map`: keys are pairwise distinct
(a real `Map` enforces this). -/
def MapWF {κ β : Type} (l : List (κ × β)) : Prop := (mapKeys l).Nodup

instance {κ β : Type} [DecidableEq κ] (l : List (κ × β)) :
    Decidable (MapWF l) :=
  inferInstanceAs (Decidable (mapKeys l).Nodup)

/-! ### fetch-pool `LruCache` (src/adapters/fetch-pool/index.ts) -/

/-- `CacheEntry<T>` of the fetch-pool cache: payload, insertion timestamp and
optional conditional-request validators. -/
structure CacheEntry (β : Type) where
  data : β
  timestamp : Nat
  etag : Option String := none
  lastModified : Option String := none
  deriving DecidableEq, Repr

/-- The fetch-pool `LruCache<T>`: a JS `Map` of entries plus the two
constructor parameters `maxSize` and `ttl`. -/
structure LruCache (β : Type) where
  entries : List (String × CacheEntry β)
  maxSize : Nat
  ttl : Nat
  deriving DecidableEq, Repr

/-- `LruCache.get`: a non-expired entry, or `none`; an expired entry is
deleted on read.  Expiry test in source: `Date.now() - entry.timestamp >
this.ttl` (strict).  Returns the possibly-updated cache alongside the
result. -/
def LruCache.get {β : Type} (c : LruCache β) (now : Nat) (key : String) :
    LruCache β × Option (CacheEntry β) :=
  match mapGet c.entries key with
  | none => (c, none)
  | some entry =>
    if now > entry.timestamp + c.ttl then
      ({ c with entries := mapDelete c.entries key }, none)
    else
      (c, some entry)

/-- `LruCache.getStale`: the entry even if expired. -/
def LruCache.getStale {β : Type} (c : LruCache β) (key : String) :
    Option (CacheEntry β) :=
  mapGet c.entries key

/-- Number of entries `LruCache.evict` removes:
`Math.max(1, Math.floor(this.maxSize * 0.1))`. -/
def LruCache.evictCount {β : Type} (c : LruCache β) : Nat :=
  max 1 (c.maxSize / 10)

/-- Comparator used by `LruCache.evict`'s sort:
`(a, b) => a[1].timestamp - b[1].timestamp`, i.e. ascending timestamp.
JS `Array.prototype.sort` is stable, so ties keep insertion order. -/
def tsLE {β : Type} (a b : String × CacheEntry β) : Prop :=
  a.2.timestamp ≤ b.2.timestamp

instance {β : Type} : DecidableRel (tsLE (β := β)) :=
  fun a b => inferInstanceAs (Decidable (a.2.timestamp ≤ b.2.timestamp))

/-- The keys `LruCache.evict` deletes: the first `evictCount` entries of the
stable ascending-timestamp sort of the map.  (`List.insertionSort` is stable,
and a stable sort's output is unique, so it coincides with JS `sort`.) -/
def LruCache.evictedKeys {β : Type} (c : LruCache β) : List String :=
  mapKeys ((List.insertionSort tsLE c.entries).take c.evictCount)

/-- `LruCache.evict`: delete the oldest 10% (minimum 1) of the entries by
insertion timestamp. -/
def LruCache.evict {β : Type} (c : LruCache β) : LruCache β :=
  { c with entries := c.evictedKeys.foldl (fun es k => mapDelete es k) c.entries }

/-- `LruCache.set`: evict when at capacity (`size >= maxSize`), then store. -/
def LruCache.set {β : Type} (c : LruCache β) (key : String) (entry : CacheEntry β) :
    LruCache β :=
  let c' := if c.entries.length ≥ c.maxSize then c.evict else c
  { c' with entries := mapSet c'.entries key entry }

/-- `LruCache.clear`. -/
def LruCache.clear {β : Type} (c : LruCache β) : LruCache β :=
  { c with entries := [] }

/-! ### playwright `LRUCache` (src/adapters/playwright/scraper.adapter.ts) -/

namespace Playwright

/-- An entry of the playwright-adapter cache: `{ data, timestamp }`. -/
structure Entry (β : Type) where
  data : β
  timestamp : Nat
  deriving DecidableEq, Repr

/-- The playwright-adapter `LRUCache<T>`. -/
structure LRUCache (β : Type) where
  cache : List (String × Entry β)
  maxSize : Nat
  ttl : Nat
  deriving DecidableEq, Repr

/-- Playwright `LRUCache.get`: on a miss return `undefined`; on an expired
entry delete it and return `undefined`; on a hit *delete and re-insert the
entry* (moving it to the end of the map's insertion order) and return its
data. -/
def LRUCache.get {β : Type} (c : LRUCache β) (now : Nat) (key : String) :
    LRUCache β × Option β :=
  match mapGet c.cache key with
  | none => (c, none)
  | some entry =>
    if now > entry.timestamp + c.ttl then
      ({ c with cache := mapDelete c.cache key }, none)
    else
      ({ c with cache := mapSet (mapDelete c.cache key) key entry }, some entry.data)

/-- Playwright `LRUCache.set`: at capacity, delete the map's first key
(`this.cache.keys().next().value`) when that key is truthy — the empty
string is falsy in JS, so an empty-string first key is not deleted — then
store the value stamped with the current time. -/
def LRUCache.set {β : Type} (c : LRUCache β) (now : Nat) (key : String) (data : β) :
    LRUCache β :=
  let c' :=
    if c.cache.length ≥ c.maxSize then
      match c.cache.head? with
      | some (k, _) => if k = "" then c else { c with cache := mapDelete c.cache k }
      | none => c
    else c
  { c' with cache := mapSet c'.cache key (Entry.mk data now) }

/-- Playwright `LRUCache.clear`. -/
def LRUCache.clear {β : Type} (c : LRUCache β) : LRUCache β :=
  { c with cache := [] }

/-! ### `PlaywrightScraperAdapter.scrape` cache/backend control flow

The browser interaction (context creation, navigation, waiting, extraction)
is abstracted as a single `backend : Except String β` outcome: the whole
`try` block either produces a `ScrapeResult` payload or throws.  Progress
callbacks, durations and the page/context teardown in `finally` are
diagnostics/resource management with no bearing on the cache or on the
returned payload, and are not modelled.  The third component of the result
counts how many backend interactions the call performed. -/

/-- The observable slice of a `ScrapeResponse`: the payload and the
`cached` flag. -/
structure ScrapeResponse (β : Type) where
  result : β
  cached : Bool
  deriving DecidableEq, Repr

/-- Cache-key fingerprint in `scrape`:
the template string `url|jsCode|waitForSelector` (absent options default to
the empty string via `|| ""`). -/
def cacheKeyOf (url jsCode waitForSelector : String) : String :=
  url ++ "|" ++ jsCode ++ "|" ++ waitForSelector

/-- `PlaywrightScraperAdapter.scrape`: check the cache when `useCache`
(returning a hit tagged `cached := true` with no backend interaction),
then check the abort signal, then run the backend once; a successful fresh
result is stored in the cache (when `useCache`) and tagged
`cached := false`. -/
def scrape {β : Type} (c : LRUCache β) (now : Nat)
    (url jsCode waitForSelector : String) (useCache aborted : Bool)
    (backend : Except String β) :
    LRUCache β × Except String (ScrapeResponse β) × Nat :=
  let cacheKey := cacheKeyOf url jsCode waitForSelector
  let hit := if useCache then c.get now cacheKey else (c, none)
  match hit with
  | (c', some r) => (c', Except.ok ⟨r, true⟩, 0)
  | (c', none) =>
    if aborted then (c', Except.error "Scrape aborted", 0)
    else
      match backend with
      | Except.error e => (c', Except.error e, 1)
      | Except.ok r =>
        ((if useCache then c'.set now cacheKey r else c'),
          Except.ok ⟨r, false⟩, 1)

end Playwright

/-! ### Batch scraping (`PlaywrightScraperAdapter.scrapeMany`)

Each target's attempts are driven by an oracle
`outcome : String → Nat → Except ε β` giving the result of attempt number
`n` (0-based) on a given URL, and the shared cancellation signal is sampled
by an oracle `aborted : Nat → Bool` at the only point `scrapeMany` reads it:
the top of each concurrency window (indexed 0, 1, ...).  Sleeps between
attempts and the randomized inter-window delay only spend time and are not
modelled.  `attempts` is observational instrumentation recording how many
attempts each URL consumed; the source does not store this number but it is
determined by the same control flow. -/

/-- Result maps of a batch (`results` / `failed`), plus the per-URL attempt
count instrumentation. -/
structure BatchCtx (β ε : Type) where
  results : List (String × β)
  failed : List (String × ε)
  attempts : List (String × Nat)
  deriving DecidableEq, Repr

/-- The inner retry loop of `scrapeMany`
(`for (let attempt = 0; attempt <= retries; attempt++) ...` with no signal
check inside): starting from attempt number `attempt` with `rem` loop
iterations left and the current `lastError`, return the successful payload
(if any), the final `lastError`, and the number of attempts made. -/
def retryFrom {β ε : Type} (outcome : Nat → Except ε β) :
    Nat → Nat → Option ε → Option β × Option ε × Nat
  | _, 0, lastError => (none, lastError, 0)
  | attempt, rem + 1, lastError =>
    match outcome attempt with
    | Except.ok r => (some r, lastError, 1)
    | Except.error e =>
      let rec_ := retryFrom outcome (attempt + 1) rem (some e)
      (rec_.1, rec_.2.1, rec_.2.2 + 1)

/-- One URL's processing inside a `scrapeMany` window: run the retry loop;
on success record the payload in `results`, otherwise record the last error
in `failed` (the loop makes `retries + 1` attempts, so `lastError` is always
set on full failure). -/
def processUrl {β ε : Type} (outcome : String → Nat → Except ε β) (retries : Nat)
    (ctx : BatchCtx β ε) (url : String) : BatchCtx β ε :=
  let r := retryFrom (outcome url) 0 (retries + 1) none
  let ctx' := { ctx with attempts := mapSet ctx.attempts url r.2.2 }
  match r.1 with
  | some v => { ctx' with results := mapSet ctx'.results url v }
  | none =>
    match r.2.1 with
    | some e => { ctx' with failed := mapSet ctx'.failed url e }
    | none => ctx'

/-- Fuel-driven chunking helper (structural recursion so that concrete runs
reduce in the kernel); with `fuel ≥ l.length` it splits `l` into successive
windows of size `c`. -/
def chunksAux {α : Type} (c : Nat) : Nat → List α → List (List α)
  | 0, _ => []
  | _, [] => []
  | fuel + 1, a :: rest =>
    (a :: rest.take (c - 1)) :: chunksAux c fuel (rest.drop (c - 1))

/-- The concurrency windows of `scrapeMany`'s
`for (let i = 0; i < urls.length; i += concurrency)` loop: successive slices
`urls.slice(i, i + concurrency)`.  (For `c = 0` the JS loop would not
terminate; the model is used with `c ≥ 1`, where each window starts with one
element and takes `c - 1` more.) -/
def chunks {α : Type} (c : Nat) (l : List α) : List (List α) :=
  chunksAux c l.length l

/-- The window loop of `scrapeMany`: at the top of each window sample the
cancellation signal (`if (signal?.aborted) break`), then settle every member
of the window before moving on (`await Promise.all(promises)`). -/
def runWindows {σ : Type} (process : List String → σ → σ) (aborted : Nat → Bool) :
    List (List String) → Nat → σ → σ
  | [], _, st => st
  | w :: rest, i, st =>
    if aborted i then st
    else runWindows process aborted rest (i + 1) (process w st)

/-- `PlaywrightScraperAdapter.scrapeMany`: process the URL list in
fixed-size concurrency windows, each URL through the retry loop; the
function always returns the two maps normally (per-target errors are
recorded, never rethrown). -/
def scrapeMany {β ε : Type} (outcome : String → Nat → Except ε β)
    (concurrency retries : Nat) (aborted : Nat → Bool) (urls : List String)
    (ctx : BatchCtx β ε) : BatchCtx β ε :=
  runWindows (fun w st => w.foldl (processUrl outcome retries) st) aborted
    (chunks concurrency urls) 0 ctx

/-! ### fetch-pool `scrapeWithRetry` (retry helper with per-attempt abort check) -/

/-- The attempt loop of `scrapeWithRetry`: unlike the playwright inner loop,
the cancellation signal is sampled at the top of each attempt
(`if (ctx.signal?.aborted) break`), so the loop can stop early with the
`lastError` accumulated so far.  Returns (successful payload, last error,
attempts made). -/
def scrapeWithRetryAux {β ε : Type} (outcome : Nat → Except ε β)
    (aborted : Nat → Bool) : Nat → Nat → Option ε → Option β × Option ε × Nat
  | _, 0, lastError => (none, lastError, 0)
  | attempt, rem + 1, lastError =>
    if aborted attempt then (none, lastError, 0)
    else
      match outcome attempt with
      | Except.ok r => (some r, lastError, 1)
      | Except.error e =>
        let rec_ := scrapeWithRetryAux outcome aborted (attempt + 1) rem (some e)
        (rec_.1, rec_.2.1, rec_.2.2 + 1)

/-- `scrapeWithRetry`: run up to `retries + 1` attempts (abort-aware); on
success record the payload in `ctx.results`, else record `lastError` in
`ctx.failed` when at least one attempt actually failed
(`if (lastError) ctx.failed.set(url, lastError)`). -/
def scrapeWithRetry {β ε : Type} (outcome : Nat → Except ε β)
    (aborted : Nat → Bool) (retries : Nat)
    (results : List (String × β)) (failed : List (String × ε)) (url : String) :
    List (String × β) × List (String × ε) :=
  let r := scrapeWithRetryAux outcome aborted 0 (retries + 1) none
  match r.1 with
  | some v => (mapSet results url v, failed)
  | none =>
    match r.2.1 with
    | some e => (results, mapSet failed url e)
    | none => (results, failed)

/-! ### `CDPPage` wire-protocol client (src/adapters/cdp/chrome-finder.ts)

The client's state is the transport handle (`ws`, here just its presence),
the id counter `messageId`, and the `pendingCommands` correlation table.
A continuation `{resolve, reject}` is identified by an opaque token
(`Nat`); settling a continuation is recorded as an emitted event. -/

namespace CDP

/-- The `error` payload of a CDP response: `{ code, message }`. -/
structure CDPError where
  code : Int
  message : String
  deriving DecidableEq, Repr

/-- A CDP response message: `{ id, result?, error? }` (the `result` payload
does not influence the client's state transitions and is left abstract). -/
structure CDPMessage where
  id : Nat
  error : Option CDPError
  deriving DecidableEq, Repr

/-- Settlement of a pending continuation. -/
inductive SettleEvent where
  | resolved (cont : Nat)
  | rejected (cont : Nat) (message : String)
  deriving DecidableEq, Repr

/-- State of a `CDPPage`: transport present, id counter, pending table. -/
structure CDPPage where
  ws : Bool
  messageId : Nat
  pendingCommands : List (Nat × Nat)
  deriving DecidableEq, Repr

/-- `CDPPage.handleMessage` on a response (a message carrying an `id`):
look up the pending entry; when present, delete it and settle the
continuation (reject on an `error` payload, resolve otherwise); when absent,
do nothing — the message is dropped with no state change and no throw. -/
def CDPPage.handleMessage (st : CDPPage) (m : CDPMessage) :
    CDPPage × List SettleEvent :=
  match mapGet st.pendingCommands m.id with
  | none => (st, [])
  | some cont =>
    let st' := { st with pendingCommands := mapDelete st.pendingCommands m.id }
    match m.error with
    | some err => (st', [SettleEvent.rejected cont err.message])
    | none => (st', [SettleEvent.resolved cont])

/-- `CDPPage.send`: throw when not connected; otherwise assign the next id
(`++this.messageId`), register the continuation in `pendingCommands`, and
transmit.  Returns the new state and the assigned id. -/
def CDPPage.send (st : CDPPage) (cont : Nat) : Except String (CDPPage × Nat) :=
  if st.ws = false then Except.error "Page not connected"
  else
    let id := st.messageId + 1
    Except.ok
      ({ st with
          messageId := id,
          pendingCommands := mapSet st.pendingCommands id cont }, id)

/-- `CDPPage.close`: close and drop the transport handle.  The source does
not touch `pendingCommands` here (the call to `client.closePage` is an
external HTTP request). -/
def CDPPage.close (st : CDPPage) : CDPPage :=
  { st with ws := false }

end CDP

/-! ### `WebActionManager.getOrCreateSession` as a small-step program

The method's body splits into cooperative slices at its `await` points:
a synchronous *check* slice (map lookup; on a hit the session is returned
at once, on a miss the call proceeds to create one) and a *create* slice
(the launched browser context — modelled as a fresh session id drawn from a
counter — is stored in the map and returned).  Between the two slices the
call is suspended inside `launchPersistentContext` / stealth setup, and any
other call may run.  `lastActivity` refreshing and closed-page recreation on
the hit path do not affect which session is returned and are not modelled. -/

namespace WebActions

/-- Where a `getOrCreateSession` call currently stands. -/
inductive CallPhase where
  | check
  | create
  | done (sessionId : Nat)
  deriving DecidableEq, Repr

/-- Manager state: the per-profile session map and a counter generating
identities for freshly created sessions (distinct ids = distinct launched
browser contexts). -/
structure ManagerState where
  sessions : List (String × Nat)
  nextSessionId : Nat
  deriving DecidableEq, Repr

/-- One cooperative slice of a `getOrCreateSession` call for `profileId`. -/
def stepCall (profileId : String) (s : ManagerState) (ph : CallPhase) :
    ManagerState × CallPhase :=
  match ph with
  | CallPhase.check =>
    match mapGet s.sessions profileId with
    | some sid => (s, CallPhase.done sid)
    | none => (s, CallPhase.create)
  | CallPhase.create =>
    let sid := s.nextSessionId
    ({ s with
        sessions := mapSet s.sessions profileId sid,
        nextSessionId := sid + 1 }, CallPhase.done sid)
  | CallPhase.done sid => (s, CallPhase.done sid)

/-- Two concurrent `getOrCreateSession` calls (A and B) for one profile. -/
structure TwoCalls where
  mgr : ManagerState
  a : CallPhase
  b : CallPhase
  deriving DecidableEq, Repr

/-- Run one scheduler choice: `true` advances call A, `false` call B. -/
def stepSched (profileId : String) (t : TwoCalls) (pickA : Bool) : TwoCalls :=
  if pickA then
    let r := stepCall profileId t.mgr t.a
    { t with mgr := r.1, a := r.2 }
  else
    let r := stepCall profileId t.mgr t.b
    { t with mgr := r.1, b := r.2 }

/-- Run a cooperative schedule over the two calls. -/
def runSched (profileId : String) (sched : List Bool) (t : TwoCalls) : TwoCalls :=
  sched.foldl (stepSched profileId) t

end WebActions

/-! ## Association-list (JS `Map`) lemmas -/

theorem mapGet_mapSet_self {κ β : Type} [DecidableEq κ] (l : List (κ × β))
    (k : κ) (v : β) : mapGet (mapSet l k v) k = some v := by
  induction l with
  | nil => simp [mapSet, mapGet]
  | cons p rest ih =>
    obtain ⟨k', v'⟩ := p
    by_cases h : k' = k
    · simp [mapSet, mapGet, h]
    · simp [mapSet, mapGet, h, ih]

theorem mapGet_mapSet_ne {κ β : Type} [DecidableEq κ] (l : List (κ × β))
    (k k' : κ) (v : β) (h : k' ≠ k) :
    mapGet (mapSet l k v) k' = mapGet l k' := by
  have h1 : ¬ k = k' := fun hh => h hh.symm
  induction l with
  | nil => simp [mapSet, mapGet, h1]
  | cons p rest ih =>
    obtain ⟨k₀, v₀⟩ := p
    by_cases h₀ : k₀ = k
    · have h2 : ¬ k₀ = k' := fun hh => h1 (h₀.symm.trans hh)
      simp only [mapSet, if_pos h₀, mapGet, if_neg h1, if_neg h2]
    · by_cases h₁ : k₀ = k'
      · simp only [mapSet, if_neg h₀, mapGet, if_pos h₁]
      · simp only [mapSet, if_neg h₀, mapGet, if_neg h₁]
        exact ih

theorem mapGet_mapDelete_ne {κ β : Type} [DecidableEq κ] (l : List (κ × β))
    (k k' : κ) (h : k' ≠ k) :
    mapGet (mapDelete l k) k' = mapGet l k' := by
  induction l with
  | nil => simp [mapDelete, mapGet]
  | cons p rest ih =>
    obtain ⟨k₀, v₀⟩ := p
    by_cases h₀ : k₀ = k
    · have h2 : ¬ k₀ = k' := fun hh => h (hh.symm.trans h₀)
      simp only [mapDelete, if_pos h₀, mapGet, if_neg h2]
    · by_cases h₁ : k₀ = k'
      · simp only [mapDelete, if_neg h₀, mapGet, if_pos h₁]
      · simp only [mapDelete, if_neg h₀, mapGet, if_neg h₁]
        exact ih

theorem mapGet_eq_none_of_not_mem_keys {κ β : Type} [DecidableEq κ]
    (l : List (κ × β)) (k : κ) (h : k ∉ mapKeys l) : mapGet l k = none := by
  induction l with
  | nil => rfl
  | cons p rest ih =>
    obtain ⟨k₀, v₀⟩ := p
    have h1 : ¬ k₀ = k := by
      intro hh
      exact h (by simp [mapKeys, hh])
    have h2 : k ∉ mapKeys rest := by
      intro hh
      apply h
      simp only [mapKeys, List.map_cons, List.mem_cons]
      exact Or.inr hh
    simp only [mapGet, if_neg h1]
    exact ih h2

theorem mem_keys_of_mapGet_eq_some {κ β : Type} [DecidableEq κ]
    (l : List (κ × β)) (k : κ) (v : β) (h : mapGet l k = some v) :
    k ∈ mapKeys l := by
  by_contra hk
  rw [mapGet_eq_none_of_not_mem_keys l k hk] at h
  exact Option.noConfusion h

theorem mapGet_mapDelete_self {κ β : Type} [DecidableEq κ] (l : List (κ × β))
    (k : κ) (hwf : MapWF l) : mapGet (mapDelete l k) k = none := by
  induction l with
  | nil => rfl
  | cons p rest ih =>
    obtain ⟨k₀, v₀⟩ := p
    have hwf' : k₀ ∉ mapKeys rest ∧ MapWF rest := by
      simpa [MapWF, mapKeys] using hwf
    by_cases h₀ : k₀ = k
    · simp only [mapDelete, if_pos h₀]
      exact mapGet_eq_none_of_not_mem_keys rest k (h₀ ▸ hwf'.1)
    · simp only [mapDelete, if_neg h₀, mapGet, if_neg h₀]
      exact ih hwf'.2

theorem keys_mapDelete_subset {κ β : Type} [DecidableEq κ] (l : List (κ × β))
    (k k' : κ) (h : k' ∈ mapKeys (mapDelete l k)) : k' ∈ mapKeys l := by
  induction l with
  | nil => simpa [mapDelete] using h
  | cons p rest ih =>
    obtain ⟨k₀, v₀⟩ := p
    by_cases h₀ : k₀ = k
    · simp only [mapDelete, if_pos h₀] at h
      simp only [mapKeys, List.map_cons, List.mem_cons]
      exact Or.inr h
    · simp only [mapDelete, if_neg h₀] at h
      simp only [mapKeys, List.map_cons, List.mem_cons] at h ⊢
      rcases h with h | h
      · exact Or.inl h
      · exact Or.inr (ih h)

theorem mapWF_mapDelete {κ β : Type} [DecidableEq κ] (l : List (κ × β))
    (k : κ) (hwf : MapWF l) : MapWF (mapDelete l k) := by
  induction l with
  | nil => simpa [mapDelete] using hwf
  | cons p rest ih =>
    obtain ⟨k₀, v₀⟩ := p
    have hwf' : k₀ ∉ mapKeys rest ∧ MapWF rest := by
      simpa [MapWF, mapKeys] using hwf
    by_cases h₀ : k₀ = k
    · simp only [mapDelete, if_pos h₀]
      exact hwf'.2
    · simp only [mapDelete, if_neg h₀, MapWF, mapKeys, List.map_cons,
        List.nodup_cons]
      refine ⟨fun hc => hwf'.1 (keys_mapDelete_subset rest k k₀ hc), ?_⟩
      exact ih hwf'.2

theorem length_mapDelete_of_mem {κ β : Type} [DecidableEq κ] (l : List (κ × β))
    (k : κ) (v : β) (h : mapGet l k = some v) :
    (mapDelete l k).length + 1 = l.length := by
  induction l with
  | nil => simp [mapGet] at h
  | cons p rest ih =>
    obtain ⟨k₀, v₀⟩ := p
    by_cases h₀ : k₀ = k
    · simp [mapDelete, h₀]
    · simp only [mapGet, if_neg h₀] at h
      simp [mapDelete, h₀, ← ih h]

theorem mapDelete_of_not_mem {κ β : Type} [DecidableEq κ] (l : List (κ × β))
    (k : κ) (h : mapGet l k = none) : mapDelete l k = l := by
  induction l with
  | nil => simp [mapDelete]
  | cons p rest ih =>
    obtain ⟨k₀, v₀⟩ := p
    by_cases h₀ : k₀ = k
    · simp [mapGet, h₀] at h
    · simp only [mapGet, if_neg h₀] at h
      simp [mapDelete, h₀, ih h]

theorem length_mapSet_of_not_mem {κ β : Type} [DecidableEq κ] (l : List (κ × β))
    (k : κ) (v : β) (h : mapGet l k = none) :
    (mapSet l k v).length = l.length + 1 := by
  induction l with
  | nil => simp [mapSet]
  | cons p rest ih =>
    obtain ⟨k₀, v₀⟩ := p
    by_cases h₀ : k₀ = k
    · simp [mapGet, h₀] at h
    · simp only [mapGet, if_neg h₀] at h
      simp [mapSet, h₀, ih h]

theorem length_mapDelete_le {κ β : Type} [DecidableEq κ] (l : List (κ × β))
    (k : κ) : (mapDelete l k).length ≤ l.length := by
  induction l with
  | nil => simp [mapDelete]
  | cons p rest ih =>
    obtain ⟨k₀, v₀⟩ := p
    by_cases h₀ : k₀ = k
    · simp [mapDelete, h₀]
    · simp only [mapDelete, if_neg h₀, List.length_cons]
      omega

/-! ## Claim theorems: wire-protocol client and session manager -/

/-- C4.  A response whose id has no entry in `pendingCommands` is silently
dropped: `handleMessage` leaves the whole client state unchanged, settles no
continuation, and raises nothing (the embedded handler is a total function
with no error outcome, mirroring the source's guarded `if (pending)`). -/
theorem claim_C4_unmatched_response_dropped (st : CDP.CDPPage)
    (m : CDP.CDPMessage) (h : mapGet st.pendingCommands m.id = none) :
    CDP.CDPPage.handleMessage st m = (st, []) := by
  simp only [CDP.CDPPage.handleMessage, h]

/-- Witness for C4 at a concrete state: a client with pending id 1 receiving
a response for id 2 is left unchanged. -/
theorem claim_C4_unmatched_response_dropped_witness :
    CDP.CDPPage.handleMessage ⟨true, 3, [(1, 10)]⟩ ⟨2, none⟩ =
      (⟨true, 3, [(1, 10)]⟩, []) :=
  claim_C4_unmatched_response_dropped ⟨true, 3, [(1, 10)]⟩ ⟨2, none⟩ (by decide)

/-- C5 counterexample.  The claim says that after `close()` completes no
pending correlation entry remains; but `CDPPage.close` only drops the
transport handle and never touches `pendingCommands`, so a client closed
with one command in flight still holds its pending entry (and the
continuation is never settled). -/
theorem claim_C5_close_counterexample :
    ¬ ((CDP.CDPPage.close ⟨true, 1, [(1, 0)]⟩).pendingCommands = []) := by
  decide

/-- C5 (amended).  A pending-correlation entry is created when a method call
is sent and destroyed when the matching response arrives; `close()` however
leaves the correlation table exactly as it was, so entries pending at close
time remain in the table with their continuations unsettled. -/
theorem claim_C5_amended_pending_lifecycle (st : CDP.CDPPage) (cont : Nat)
    (m : CDP.CDPMessage) (c : Nat) (hws : st.ws = true)
    (hm : mapGet st.pendingCommands m.id = some c) :
    (∃ st' id, CDP.CDPPage.send st cont = Except.ok (st', id) ∧
        mapGet st'.pendingCommands id = some cont ∧ id = st.messageId + 1)
    ∧ (CDP.CDPPage.handleMessage st m).1.pendingCommands =
        mapDelete st.pendingCommands m.id
    ∧ (CDP.CDPPage.close st).pendingCommands = st.pendingCommands := by
  refine ⟨?_, ?_, rfl⟩
  · refine ⟨{ st with
        messageId := st.messageId + 1,
        pendingCommands := mapSet st.pendingCommands (st.messageId + 1) cont },
      st.messageId + 1, ?_, ?_, rfl⟩
    · simp only [CDP.CDPPage.send, hws]
      rfl
    · simp only [mapGet_mapSet_self]
  · simp only [CDP.CDPPage.handleMessage, hm]
    cases m.error with
    | none => rfl
    | some err => rfl

/-- Witness for C5 (amended) at a concrete client with one pending entry. -/
theorem claim_C5_amended_pending_lifecycle_witness :
    (∃ st' id,
        CDP.CDPPage.send ⟨true, 4, [(3, 7)]⟩ 9 = Except.ok (st', id) ∧
        mapGet st'.pendingCommands id = some 9 ∧ id = 4 + 1)
    ∧ (CDP.CDPPage.handleMessage ⟨true, 4, [(3, 7)]⟩ ⟨3, none⟩).1.pendingCommands =
        mapDelete [(3, 7)] 3
    ∧ (CDP.CDPPage.close ⟨true, 4, [(3, 7)]⟩).pendingCommands = [(3, 7)] :=
  claim_C5_amended_pending_lifecycle ⟨true, 4, [(3, 7)]⟩ 9 ⟨3, none⟩ 7
    (by decide) (by decide)

/-- C6.  The check-then-create race in `getOrCreateSession`: under the
cooperative schedule where both calls for profile "p" run their synchronous
map-lookup slice before either completes session creation (lookup A, lookup
B, create A, create B — exactly what `Promise.all` of two calls produces,
since the whole creation path sits behind `await`s), call A returns session
0, call B returns the *distinct* session 1, two browser contexts have been
created (`nextSessionId = 2`), and B's insert has overwritten A's map entry.
This violates the claimed invariant that the second call observes the first
call's Session and that at most one Session per identity is ever created. -/
theorem claim_C6_getOrCreateSession_race :
    (WebActions.runSched "p" [true, false, true, false]
        ⟨⟨[], 0⟩, WebActions.CallPhase.check, WebActions.CallPhase.check⟩).a =
      WebActions.CallPhase.done 0
    ∧ (WebActions.runSched "p" [true, false, true, false]
        ⟨⟨[], 0⟩, WebActions.CallPhase.check, WebActions.CallPhase.check⟩).b =
      WebActions.CallPhase.done 1
    ∧ (WebActions.runSched "p" [true, false, true, false]
        ⟨⟨[], 0⟩, WebActions.CallPhase.check, WebActions.CallPhase.check⟩).mgr.nextSessionId = 2
    ∧ (WebActions.runSched "p" [true, false, true, false]
        ⟨⟨[], 0⟩, WebActions.CallPhase.check, WebActions.CallPhase.check⟩).mgr.sessions =
      [("p", 1)] := by
  decide

/-! ## Claim theorems: caches -/

/-- C7 counterexample.  With `ttl = 0`, `get` immediately after `set` (no
time passing) returns the entry rather than absent: the expiry test is the
strict `Date.now() - entry.timestamp > this.ttl`, and `0 > 0` is false.  The
claim's "time-to-live zero, in which case it returns absent" is therefore
false on the code. -/
theorem claim_C7_ttl_zero_counterexample :
    ¬ ((((⟨[], 5, 0⟩ : LruCache Nat).set "k" ⟨42, 5, none, none⟩).get 5 "k").2
        = none) := by
  decide

/-- C7 (amended).  For every cache under capacity, `get(K)` immediately
after `set(K, E)` (no time passing) returns E for *every* time-to-live,
zero included: an entry only expires when the elapsed time strictly exceeds
the TTL. -/
theorem claim_C7_amended_get_after_set {β : Type} (c : LruCache β)
    (k : String) (e : CacheEntry β) (hcap : c.entries.length < c.maxSize) :
    ((c.set k e).get e.timestamp k).2 = some e := by
  have h1 : ¬ (c.entries.length ≥ c.maxSize) := not_le.mpr hcap
  simp only [LruCache.set, if_neg h1, LruCache.get, mapGet_mapSet_self]
  have h2 : ¬ (e.timestamp > e.timestamp + c.ttl) := by omega
  simp only [h2, if_false]

/-- Witness for C7 (amended): a zero-TTL cache under capacity returns the
just-inserted entry. -/
theorem claim_C7_amended_get_after_set_witness :
    ((((⟨[], 5, 0⟩ : LruCache Nat).set "k" ⟨42, 5, none, none⟩).get 5 "k").2
      = some ⟨42, 5, none, none⟩)
    ∧ (0 : Nat) < 5 :=
  ⟨claim_C7_amended_get_after_set (⟨[], 5, 0⟩ : LruCache Nat) "k"
      ⟨42, 5, none, none⟩ (by decide), by decide⟩

/-- C9 counterexample.  The claim quantifies over both cited caches, but the
playwright `LRUCache.get` re-inserts the entry it returns, moving it to the
end of the map's insertion order, and `LRUCache.set` at capacity evicts the
map's *first* key.  Capacity-2 run: insert "a" then "b"; reading "a" then
inserting "c" evicts "b", while inserting "c" without the read evicts "a" —
the read changed which entry was evicted. -/
theorem claim_C9_read_changes_eviction_counterexample :
    ¬ (mapKeys ((((((⟨[], 2, 1000⟩ : Playwright.LRUCache Nat).set 1 "a" 10).set
            2 "b" 20).get 3 "a").1.set 4 "c" 30).cache)
        = mapKeys (((((⟨[], 2, 1000⟩ : Playwright.LRUCache Nat).set 1 "a" 10).set
            2 "b" 20).set 4 "c" 30).cache)) := by
  decide

/-- C9 (amended).  Insertion-time-only eviction unaffected by reads holds
for the fetch-pool `LruCache`: a `get` that does not hit an expired entry
leaves the cache state entirely unchanged (a hit neither moves nor restamps
the entry), so any later insertions evict exactly the same entries with or
without the read.  The playwright `LRUCache` does not have this property
(its `get` re-orders, see the counterexample). -/
theorem claim_C9_amended_fetch_pool_get_pure {β : Type} (c : LruCache β)
    (now : Nat) (k : String)
    (hfresh : ∀ e, mapGet c.entries k = some e → ¬ (now > e.timestamp + c.ttl)) :
    (c.get now k).1 = c
    ∧ (∀ k' e', ((c.get now k).1.set k' e') = c.set k' e')
    ∧ (c.get now k).1.evictedKeys = c.evictedKeys := by
  have h1 : (c.get now k).1 = c := by
    unfold LruCache.get
    cases hm : mapGet c.entries k with
    | none => rfl
    | some e => simp only [if_neg (hfresh e hm)]
  exact ⟨h1, fun k' e' => by rw [h1], by rw [h1]⟩

/-- Witness for C9 (amended): reading a fresh entry leaves a concrete cache
unchanged, and the next insertion behaves identically. -/
theorem claim_C9_amended_fetch_pool_get_pure_witness :
    (((⟨[("a", ⟨1, 0, none, none⟩)], 5, 100⟩ : LruCache Nat).get 50 "a").1
      = (⟨[("a", ⟨1, 0, none, none⟩)], 5, 100⟩ : LruCache Nat))
    ∧ ((((⟨[("a", ⟨1, 0, none, none⟩)], 5, 100⟩ : LruCache Nat).get 50 "a").1.set
          "b" ⟨2, 50, none, none⟩)
        = (⟨[("a", ⟨1, 0, none, none⟩)], 5, 100⟩ : LruCache Nat).set
          "b" ⟨2, 50, none, none⟩) := by
  have h := claim_C9_amended_fetch_pool_get_pure
    (⟨[("a", ⟨1, 0, none, none⟩)], 5, 100⟩ : LruCache Nat) 50 "a"
    (by decide)
  exact ⟨h.1, h.2.1 "b" ⟨2, 50, none, none⟩⟩

/-! ## Claim theorems: per-target retry loop (`scrapeWithRetry`) -/

/-- Characterization of the abort-aware attempt loop: if it made no attempt
it changed nothing (and only because the window was empty or the signal was
aborted at its first check), and if it made `n ≥ 1` attempts without
succeeding then all `n` attempts ran un-aborted and failed, `lastError` is
the error of the last attempt that ran, and the loop stopped by exhausting
its iterations or by observing the abort signal. -/
theorem scrapeWithRetryAux_char {β ε : Type} (outcome : Nat → Except ε β)
    (aborted : Nat → Bool) :
    ∀ (rem attempt : Nat) (le : Option ε) (res : Option β) (lerr : Option ε)
      (n : Nat),
      scrapeWithRetryAux outcome aborted attempt rem le = (res, lerr, n) →
      (n = 0 → res = none ∧ lerr = le ∧ (rem = 0 ∨ aborted attempt = true))
      ∧ (res = none → 1 ≤ n →
          (∀ i, attempt ≤ i → i < attempt + n →
            aborted i = false ∧ ∃ ei, outcome i = Except.error ei)
          ∧ (∃ elast, outcome (attempt + n - 1) = Except.error elast ∧
              lerr = some elast)
          ∧ n ≤ rem
          ∧ (n = rem ∨ aborted (attempt + n) = true)) := by
  intro rem
  induction rem with
  | zero =>
    intro attempt le res lerr n h
    simp only [scrapeWithRetryAux, Prod.mk.injEq] at h
    obtain ⟨h1, h2, h3⟩ := h
    subst h1
    subst h2
    subst h3
    refine ⟨fun _ => ⟨rfl, rfl, Or.inl rfl⟩, ?_⟩
    intro _ hn
    omega
  | succ rem ih =>
    intro attempt le res lerr n h
    by_cases hab : aborted attempt = true
    · simp only [scrapeWithRetryAux, if_pos hab, Prod.mk.injEq] at h
      obtain ⟨h1, h2, h3⟩ := h
      subst h1
      subst h2
      subst h3
      refine ⟨fun _ => ⟨rfl, rfl, Or.inr hab⟩, ?_⟩
      intro _ hn
      omega
    · have hab' : aborted attempt = false := by simpa using hab
      cases ho : outcome attempt with
      | ok r =>
        simp only [scrapeWithRetryAux, if_neg hab, ho, Prod.mk.injEq] at h
        obtain ⟨h1, h2, h3⟩ := h
        constructor
        · intro hn
          omega
        · intro hres _
          exact absurd (h1.trans hres) (by simp)
      | error e =>
        rcases hr : scrapeWithRetryAux outcome aborted (attempt + 1) rem (some e)
          with ⟨res', lerr', n'⟩
        simp only [scrapeWithRetryAux, if_neg hab, ho, hr, Prod.mk.injEq] at h
        obtain ⟨h1, h2, h3⟩ := h
        subst h1
        subst h2
        subst h3
        have IH := ih (attempt + 1) (some e) res' lerr' n' hr
        constructor
        · intro hn
          omega
        · intro hres _
          by_cases hn' : n' = 0
          · subst hn'
            obtain ⟨hres', hlerr', hwhy⟩ := IH.1 rfl
            refine ⟨?_, ⟨e, ?_, ?_⟩, by omega, ?_⟩
            · intro i hi1 hi2
              have hia : i = attempt := by omega
              subst hia
              exact ⟨hab', ⟨e, ho⟩⟩
            · have hidx : attempt + (0 + 1) - 1 = attempt := by omega
              rw [hidx]
              exact ho
            · rw [hlerr']
            · rcases hwhy with h0 | habn
              · left
                omega
              · right
                have hidx : attempt + (0 + 1) = attempt + 1 := by omega
                rw [hidx]
                exact habn
          · have hn'1 : 1 ≤ n' := by omega
            obtain ⟨hall, ⟨elast, helast, hlerr⟩, hle, hlast⟩ := IH.2 hres hn'1
            refine ⟨?_, ⟨elast, ?_, hlerr⟩, by omega, ?_⟩
            · intro i hi1 hi2
              by_cases hia : i = attempt
              · subst hia
                exact ⟨hab', ⟨e, ho⟩⟩
              · exact hall i (by omega) (by omega)
            · have hidx : attempt + (n' + 1) - 1 = attempt + 1 + n' - 1 := by omega
              rw [hidx]
              exact helast
            · rcases hlast with h0 | habn
              · left
                omega
              · right
                have hidx : attempt + (n' + 1) = attempt + 1 + n' := by omega
                rw [hidx]
                exact habn

/-- C10.  If the batch cancellation signal is already aborted when
`scrapeWithRetry` begins, the function returns both maps unchanged (the
target appears in neither); and the target is recorded in the failures map
only when at least one attempt actually ran and failed — in which case the
recorded error is the one of the last attempt that ran, every attempt that
ran was un-aborted and failed, and the loop stopped by exhausting
`retries + 1` attempts or by observing the abort signal. -/
theorem claim_C10_scrapeWithRetry_abort_and_last_error {β ε : Type}
    (outcome : Nat → Except ε β) (aborted : Nat → Bool) (retries : Nat)
    (results : List (String × β)) (failed : List (String × ε)) (url : String) :
    (aborted 0 = true →
      scrapeWithRetry outcome aborted retries results failed url =
        (results, failed))
    ∧ ((scrapeWithRetry outcome aborted retries results failed url).2 ≠ failed →
        ∃ n e, 1 ≤ n ∧ n ≤ retries + 1
          ∧ (∀ i, i < n → aborted i = false ∧ ∃ ei, outcome i = Except.error ei)
          ∧ outcome (n - 1) = Except.error e
          ∧ scrapeWithRetry outcome aborted retries results failed url =
              (results, mapSet failed url e)
          ∧ (n = retries + 1 ∨ aborted n = true)) := by
  constructor
  · intro hab0
    have h0 : scrapeWithRetryAux outcome aborted 0 (retries + 1) none =
        (none, none, 0) := by
      simp only [scrapeWithRetryAux, if_pos hab0]
    simp only [scrapeWithRetry, h0]
  · intro hne
    rcases haux : scrapeWithRetryAux outcome aborted 0 (retries + 1) none
      with ⟨res, lerr, n⟩
    have hchar := scrapeWithRetryAux_char outcome aborted (retries + 1) 0 none
      res lerr n haux
    cases res with
    | some v =>
      have hsw : scrapeWithRetry outcome aborted retries results failed url =
          (mapSet results url v, failed) := by
        simp only [scrapeWithRetry, haux]
      rw [hsw] at hne
      exact absurd rfl hne
    | none =>
      cases lerr with
      | none =>
        have hsw : scrapeWithRetry outcome aborted retries results failed url =
            (results, failed) := by
          simp only [scrapeWithRetry, haux]
        rw [hsw] at hne
        exact absurd rfl hne
      | some e =>
        have hsw : scrapeWithRetry outcome aborted retries results failed url =
            (results, mapSet failed url e) := by
          simp only [scrapeWithRetry, haux]
        have hn1 : 1 ≤ n := by
          by_contra hc
          have hn0 : n = 0 := by omega
          obtain ⟨_, hle, _⟩ := hchar.1 hn0
          exact Option.noConfusion hle
        obtain ⟨hall, ⟨elast, helast, hlerr⟩, hle, hlast⟩ := hchar.2 rfl hn1
        have helaste : elast = e := by
          injection hlerr.symm
        subst helaste
        refine ⟨n, elast, hn1, by omega, ?_, ?_, hsw, ?_⟩
        · intro i hi
          exact hall i (by omega) (by omega)
        · have hidx : n - 1 = 0 + n - 1 := by omega
          rw [hidx]
          exact helast
        · rcases hlast with h0 | habn
          · left
            omega
          · right
            have hidx : n = 0 + n := by omega
            rw [hidx]
            exact habn

/-- Witness for C10: an already-aborted signal leaves both maps unchanged
(first conjunct applied), and an un-aborted all-failing run records the
last attempt's error (second conjunct applied at a concrete input). -/
theorem claim_C10_scrapeWithRetry_abort_and_last_error_witness :
    (scrapeWithRetry (fun i => (Except.error (i + 50) : Except Nat Nat))
        (fun _ => true) 1 [("v", 3)] [("w", 9)] "u" = ([("v", 3)], [("w", 9)]))
    ∧ ∃ n e, 1 ≤ n ∧ n ≤ 1 + 1
        ∧ (∀ i, i < n → (fun (_ : Nat) => false) i = false
            ∧ ∃ ei, (fun i => (Except.error (i + 50) : Except Nat Nat)) i =
                Except.error ei)
        ∧ (fun i => (Except.error (i + 50) : Except Nat Nat)) (n - 1) =
            Except.error e
        ∧ scrapeWithRetry (fun i => (Except.error (i + 50) : Except Nat Nat))
            (fun _ => false) 1 [] [] "u" = ([], mapSet [] "u" e)
        ∧ (n = 1 + 1 ∨ (fun (_ : Nat) => false) n = true) :=
  ⟨(claim_C10_scrapeWithRetry_abort_and_last_error
      (fun i => (Except.error (i + 50) : Except Nat Nat)) (fun _ => true) 1
      [("v", 3)] [("w", 9)] "u").1 rfl,
    (claim_C10_scrapeWithRetry_abort_and_last_error
      (fun i => (Except.error (i + 50) : Except Nat Nat)) (fun _ => false) 1
      [] [] "u").2 (by decide)⟩

/-! ## Claim theorems: single-target scrape with cache (C1) -/

/-- A playwright-cache `get` that misses never grows the cache and keeps
the configuration (`maxSize`, `ttl`) unchanged. -/
theorem pwGet_miss_shrinks {β : Type} (c : Playwright.LRUCache β) (now : Nat)
    (k : String) (h : (c.get now k).2 = none) :
    (c.get now k).1.cache.length ≤ c.cache.length
    ∧ (c.get now k).1.maxSize = c.maxSize
    ∧ (c.get now k).1.ttl = c.ttl := by
  cases hm : mapGet c.cache k with
  | none =>
    have hh : c.get now k = (c, none) := by
      simp only [Playwright.LRUCache.get, hm]
    rw [hh]
    exact ⟨le_refl _, rfl, rfl⟩
  | some e =>
    by_cases hex : now > e.timestamp + c.ttl
    · have hh : c.get now k = ({ c with cache := mapDelete c.cache k }, none) := by
        simp only [Playwright.LRUCache.get, hm, if_pos hex]
      rw [hh]
      exact ⟨length_mapDelete_le c.cache k, rfl, rfl⟩
    · exfalso
      have hh : c.get now k =
          ({ c with cache := mapSet (mapDelete c.cache k) k e }, some e.data) := by
        simp only [Playwright.LRUCache.get, hm, if_neg hex]
      rw [hh] at h
      exact Option.noConfusion h

/-- C1.  With caching enabled, no abort, a cache miss for the key, the cache
under capacity and a successful first scrape, acquiring the same target
twice issues exactly one backend call: the first call hits the backend once,
stores the result and returns it tagged `cached := false`; the second call
(within the TTL) touches no backend (zero backend interactions, whatever the
backend oracle would do) and returns the identical content tagged
`cached := true`. -/
theorem claim_C1_second_scrape_is_cache_hit {β : Type}
    (c : Playwright.LRUCache β) (now₁ now₂ : Nat) (url jsCode sel : String)
    (r : β) (backend₂ : Except String β)
    (hmiss : (c.get now₁ (Playwright.cacheKeyOf url jsCode sel)).2 = none)
    (hcap : c.cache.length < c.maxSize) (httl : now₂ ≤ now₁ + c.ttl) :
    (Playwright.scrape c now₁ url jsCode sel true false (Except.ok r)).2 =
      (Except.ok ⟨r, false⟩, 1)
    ∧ (Playwright.scrape
        (Playwright.scrape c now₁ url jsCode sel true false (Except.ok r)).1
        now₂ url jsCode sel true false backend₂).2 =
      (Except.ok ⟨r, true⟩, 0) := by
  obtain ⟨hlen, hms, htt⟩ := pwGet_miss_shrinks c now₁
    (Playwright.cacheKeyOf url jsCode sel) hmiss
  rcases hg : c.get now₁ (Playwright.cacheKeyOf url jsCode sel) with ⟨c', o⟩
  have ho : o = none := by
    rw [hg] at hmiss
    exact hmiss
  subst ho
  rw [hg] at hlen hms htt
  have h1 : Playwright.scrape c now₁ url jsCode sel true false (Except.ok r) =
      (c'.set now₁ (Playwright.cacheKeyOf url jsCode sel) r,
        Except.ok ⟨r, false⟩, 1) := by
    simp [Playwright.scrape, hg]
  have hlen' : c'.cache.length ≤ c.cache.length := hlen
  have hms' : c'.maxSize = c.maxSize := hms
  have htt' : c'.ttl = c.ttl := htt
  have hnocap : ¬ (c'.cache.length ≥ c'.maxSize) := by
    rw [hms']
    exact not_le.mpr (lt_of_le_of_lt hlen' hcap)
  have hg2 : ((c'.set now₁ (Playwright.cacheKeyOf url jsCode sel) r).get now₂
      (Playwright.cacheKeyOf url jsCode sel)).2 = some r := by
    simp only [Playwright.LRUCache.set, if_neg hnocap, Playwright.LRUCache.get,
      mapGet_mapSet_self]
    have hfresh : ¬ (now₂ > (Playwright.Entry.mk r now₁).timestamp + c'.ttl) := by
      simp only [htt']
      omega
    simp only [if_neg hfresh]
  rcases hgg : (c'.set now₁ (Playwright.cacheKeyOf url jsCode sel) r).get now₂
      (Playwright.cacheKeyOf url jsCode sel) with ⟨c₂, o₂⟩
  have ho₂ : o₂ = some r := by
    rw [hgg] at hg2
    exact hg2
  subst ho₂
  refine ⟨by rw [h1], ?_⟩
  rw [h1]
  simp [Playwright.scrape, hgg]

/-- Witness for C1 at a concrete cache and target. -/
theorem claim_C1_second_scrape_is_cache_hit_witness :
    (Playwright.scrape (⟨[], 200, 1800000⟩ : Playwright.LRUCache Nat) 100
        "https;//e.com" "" "" true false (Except.ok 7)).2 =
      (Except.ok ⟨7, false⟩, 1)
    ∧ (Playwright.scrape
        (Playwright.scrape (⟨[], 200, 1800000⟩ : Playwright.LRUCache Nat) 100
          "https;//e.com" "" "" true false (Except.ok 7)).1
        200 "https;//e.com" "" "" true false (Except.error "backend down")).2 =
      (Except.ok ⟨7, true⟩, 0) :=
  claim_C1_second_scrape_is_cache_hit (⟨[], 200, 1800000⟩ : Playwright.LRUCache Nat)
    100 200 "https;//e.com" "" "" 7 (Except.error "backend down")
    (by decide) (by decide) (by decide)

/-! ## Claim theorems: batch scraping (`scrapeMany`, C2 and C3) -/

/-- Concatenating the concurrency windows gives back the URL list. -/
theorem chunksAux_flatten {α : Type} (c : Nat) :
    ∀ (fuel : Nat) (l : List α), l.length ≤ fuel →
      (chunksAux c fuel l).flatten = l := by
  intro fuel
  induction fuel with
  | zero =>
    intro l hl
    have : l = [] := List.eq_nil_of_length_eq_zero (by omega)
    subst this
    rfl
  | succ fuel ih =>
    intro l hl
    cases l with
    | nil => rfl
    | cons a rest =>
      simp only [chunksAux, List.flatten_cons]
      have hrec : (rest.drop (c - 1)).length ≤ fuel := by
        simp only [List.length_drop]
        simp only [List.length_cons] at hl
        omega
      rw [ih (rest.drop (c - 1)) hrec]
      simp only [List.cons_append, List.take_append_drop]

/-- With the windows list exhausted or the signal never aborted, the window
loop is a plain fold over the windows. -/
theorem runWindows_no_abort {σ : Type} (process : List String → σ → σ)
    (aborted : Nat → Bool) (hab : ∀ i, aborted i = false) :
    ∀ (ws : List (List String)) (i : Nat) (st : σ),
      runWindows process aborted ws i st =
        ws.foldl (fun st w => process w st) st := by
  intro ws
  induction ws with
  | nil =>
    intro i st
    rfl
  | cons w rest ih =>
    intro i st
    simp only [runWindows, hab i, List.foldl_cons]
    exact ih (i + 1) (process w st)

/-- The window loop stops at the first aborted window-top check: it
processes exactly the windows before index `j` and leaves the state of the
remaining windows untouched. -/
theorem runWindows_stops {σ : Type} (process : List String → σ → σ)
    (aborted : Nat → Bool) :
    ∀ (ws : List (List String)) (j i : Nat) (st : σ),
      (∀ i', i' < j → aborted (i + i') = false) → aborted (i + j) = true →
      runWindows process aborted ws i st =
        (ws.take j).foldl (fun st w => process w st) st := by
  intro ws
  induction ws with
  | nil =>
    intro j i st _ _
    simp [runWindows]
  | cons w rest ih =>
    intro j i st hfalse htrue
    cases j with
    | zero =>
      have h0 : aborted i = true := by simpa using htrue
      simp only [runWindows, if_pos h0, List.take_zero, List.foldl_nil]
    | succ j =>
      have h0 : aborted i = false := by
        have := hfalse 0 (by omega)
        simpa using this
      have h0' : ¬ (aborted i = true) := by
        simp [h0]
      simp only [runWindows, if_neg h0', List.take_cons, List.foldl_cons]
      refine ih j (i + 1) (process w st) ?_ ?_
      · intro i' hi'
        have := hfalse (i' + 1) (by omega)
        have hidx : i + (i' + 1) = i + 1 + i' := by omega
        rw [hidx] at this
        exact this
      · have hidx : i + (j + 1) = i + 1 + j := by omega
        rw [hidx] at htrue
        exact htrue

/-- With no cancellation, `scrapeMany` is a plain fold of the per-URL
processing over the whole URL list. -/
theorem scrapeMany_no_abort {β ε : Type} (outcome : String → Nat → Except ε β)
    (concurrency retries : Nat) (aborted : Nat → Bool)
    (hab : ∀ i, aborted i = false) (urls : List String) (ctx : BatchCtx β ε) :
    scrapeMany outcome concurrency retries aborted urls ctx =
      urls.foldl (processUrl outcome retries) ctx := by
  unfold scrapeMany chunks
  rw [runWindows_no_abort _ aborted hab (chunksAux concurrency urls.length urls)
    0 ctx]
  rw [← List.foldl_flatten]
  rw [chunksAux_flatten concurrency urls.length urls (le_refl _)]

/-- The inner retry loop under an all-failing backend: every one of its
`rem + 1` iterations runs and fails, and `lastError` ends as the error of
the final attempt. -/
theorem retryFrom_all_fail {β ε : Type} (outcome : Nat → Except ε β)
    (errf : Nat → ε) (hfail : ∀ n, outcome n = Except.error (errf n)) :
    ∀ (rem attempt : Nat) (le : Option ε),
      retryFrom outcome attempt (rem + 1) le =
        (none, some (errf (attempt + rem)), rem + 1) := by
  intro rem
  induction rem with
  | zero =>
    intro attempt le
    simp only [retryFrom, hfail attempt, Nat.add_zero]
  | succ rem ih =>
    intro attempt le
    have hstep : retryFrom outcome attempt (rem + 1 + 1) le =
        ((retryFrom outcome (attempt + 1) (rem + 1) (some (errf attempt))).1,
          (retryFrom outcome (attempt + 1) (rem + 1) (some (errf attempt))).2.1,
          (retryFrom outcome (attempt + 1) (rem + 1) (some (errf attempt))).2.2
            + 1) := by
      simp only [retryFrom, hfail attempt]
    rw [hstep, ih (attempt + 1) (some (errf attempt))]
    have hidx : attempt + 1 + rem = attempt + (rem + 1) := by omega
    rw [hidx]

/-- One URL's batch processing under an all-failing backend: no result, the
failure map gains the error of attempt `retries`, and `retries + 1` attempts
are consumed. -/
theorem processUrl_all_fail {β ε : Type} (outcome : String → Nat → Except ε β)
    (errf : String → Nat → ε)
    (hfail : ∀ u n, outcome u n = Except.error (errf u n)) (retries : Nat)
    (ctx : BatchCtx β ε) (url : String) :
    processUrl outcome retries ctx url =
      ⟨ctx.results, mapSet ctx.failed url (errf url retries),
        mapSet ctx.attempts url (retries + 1)⟩ := by
  unfold processUrl
  rw [retryFrom_all_fail (outcome url) (errf url) (hfail url) retries 0 none]
  simp only [Nat.zero_add]

/-- Fold of the per-URL processing under an all-failing backend: results are
untouched, every processed URL carries the error of its final attempt and an
attempt count of `retries + 1`, unprocessed keys are untouched, and with
distinct fresh URLs the failure map grows by exactly one entry per URL. -/
theorem foldl_processUrl_all_fail {β ε : Type}
    (outcome : String → Nat → Except ε β) (errf : String → Nat → ε)
    (hfail : ∀ u n, outcome u n = Except.error (errf u n)) (retries : Nat) :
    ∀ (urls : List String) (ctx : BatchCtx β ε),
      (urls.foldl (processUrl outcome retries) ctx).results = ctx.results
      ∧ (∀ u, u ∉ urls →
          mapGet (urls.foldl (processUrl outcome retries) ctx).failed u =
            mapGet ctx.failed u
          ∧ mapGet (urls.foldl (processUrl outcome retries) ctx).attempts u =
            mapGet ctx.attempts u)
      ∧ (∀ u, u ∈ urls →
          mapGet (urls.foldl (processUrl outcome retries) ctx).failed u =
            some (errf u retries)
          ∧ mapGet (urls.foldl (processUrl outcome retries) ctx).attempts u =
            some (retries + 1))
      ∧ (urls.Nodup → (∀ u, u ∈ urls → mapGet ctx.failed u = none) →
          (urls.foldl (processUrl outcome retries) ctx).failed.length =
            ctx.failed.length + urls.length) := by
  intro urls
  induction urls with
  | nil =>
    intro ctx
    refine ⟨rfl, fun u _ => ⟨rfl, rfl⟩, fun u hu => absurd hu (by simp), ?_⟩
    intro _ _
    simp
  | cons u₀ rest ih =>
    intro ctx
    rw [List.foldl_cons, processUrl_all_fail outcome errf hfail retries ctx u₀]
    refine ⟨(ih _).1, ?_, ?_, ?_⟩
    · intro u hu
      have hu₀ : u ≠ u₀ := fun hh => hu (by simp [hh])
      have hur : u ∉ rest := fun hh => hu (by simp [hh])
      obtain ⟨hf, ha⟩ := (ih _).2.1 u hur
      rw [hf, ha]
      constructor
      · exact mapGet_mapSet_ne ctx.failed u₀ u (errf u₀ retries) hu₀
      · exact mapGet_mapSet_ne ctx.attempts u₀ u (retries + 1) hu₀
    · intro u hu
      by_cases hur : u ∈ rest
      · exact (ih _).2.2.1 u hur
      · have hu₀ : u = u₀ := by
          rcases List.mem_cons.mp hu with h | h
          · exact h
          · exact absurd h hur
        subst hu₀
        obtain ⟨hf, ha⟩ := (ih _).2.1 u hur
        rw [hf, ha]
        constructor
        · exact mapGet_mapSet_self ctx.failed u (errf u retries)
        · exact mapGet_mapSet_self ctx.attempts u (retries + 1)
    · intro hnd hfresh
      have hnd' : rest.Nodup := (List.nodup_cons.mp hnd).2
      have hu₀r : u₀ ∉ rest := (List.nodup_cons.mp hnd).1
      have hfresh' : ∀ u, u ∈ rest →
          mapGet (mapSet ctx.failed u₀ (errf u₀ retries)) u = none := by
        intro u hur
        have hu₀ : u ≠ u₀ := fun hh => hu₀r (hh ▸ hur)
        rw [mapGet_mapSet_ne ctx.failed u₀ u (errf u₀ retries) hu₀]
        exact hfresh u (by simp [hur])
      have hlen := (ih ⟨ctx.results, mapSet ctx.failed u₀ (errf u₀ retries),
          mapSet ctx.attempts u₀ (retries + 1)⟩).2.2.2 hnd' hfresh'
      have hgrow : (mapSet ctx.failed u₀ (errf u₀ retries)).length =
          ctx.failed.length + 1 :=
        length_mapSet_of_not_mem ctx.failed u₀ (errf u₀ retries)
          (hfresh u₀ (by simp))
      simp only [List.length_cons]
      rw [hlen]
      simp only [hgrow]
      omega

/-- C2.  For a non-empty list of distinct targets, concurrency ≥ 1, and an
all-failing backend with no cancellation, `scrapeMany` returns normally (it
is a total function into the two maps) with an empty results map and a
failure map holding exactly one entry per target — that target's last error,
the one of attempt number `retries` — after `retries + 1` attempts per
target. -/
theorem claim_C2_all_fail_batch {β ε : Type}
    (outcome : String → Nat → Except ε β) (errf : String → Nat → ε)
    (concurrency retries : Nat) (aborted : Nat → Bool) (urls : List String)
    (hc : 1 ≤ concurrency)
    (hfail : ∀ u n, outcome u n = Except.error (errf u n))
    (hab : ∀ i, aborted i = false) (hne : urls ≠ []) (hnd : urls.Nodup) :
    (scrapeMany outcome concurrency retries aborted urls ⟨[], [], []⟩).results
      = []
    ∧ (scrapeMany outcome concurrency retries aborted urls
        ⟨[], [], []⟩).failed.length = urls.length
    ∧ (∀ u, u ∈ urls →
        mapGet (scrapeMany outcome concurrency retries aborted urls
          ⟨[], [], []⟩).failed u = some (errf u retries)
        ∧ mapGet (scrapeMany outcome concurrency retries aborted urls
          ⟨[], [], []⟩).attempts u = some (retries + 1))
    ∧ (∀ u, u ∉ urls →
        mapGet (scrapeMany outcome concurrency retries aborted urls
          ⟨[], [], []⟩).failed u = none) := by
  rw [scrapeMany_no_abort outcome concurrency retries aborted hab urls
    ⟨[], [], []⟩]
  obtain ⟨h1, h2, h3, h4⟩ :=
    foldl_processUrl_all_fail outcome errf hfail retries urls ⟨[], [], []⟩
  refine ⟨h1, ?_, h3, ?_⟩
  · have := h4 hnd (fun u _ => rfl)
    simpa using this
  · intro u hu
    exact (h2 u hu).1

/-- Witness for C2: three distinct targets, concurrency 2, one retry, a
backend failing attempt `n` on target `u` with error `n`; the theorem's
conclusions instantiated and projected at concrete targets. -/
theorem claim_C2_all_fail_batch_witness :
    (scrapeMany (fun _ n => (Except.error n : Except Nat Nat)) 2 1
      (fun _ => false) ["a", "b", "c"] ⟨[], [], []⟩).results = []
    ∧ (scrapeMany (fun _ n => (Except.error n : Except Nat Nat)) 2 1
      (fun _ => false) ["a", "b", "c"] ⟨[], [], []⟩).failed.length = 3
    ∧ (mapGet (scrapeMany (fun _ n => (Except.error n : Except Nat Nat)) 2 1
      (fun _ => false) ["a", "b", "c"] ⟨[], [], []⟩).failed "b" = some 1
      ∧ mapGet (scrapeMany (fun _ n => (Except.error n : Except Nat Nat)) 2 1
      (fun _ => false) ["a", "b", "c"] ⟨[], [], []⟩).attempts "b" = some 2)
    ∧ mapGet (scrapeMany (fun _ n => (Except.error n : Except Nat Nat)) 2 1
      (fun _ => false) ["a", "b", "c"] ⟨[], [], []⟩).failed "d" = none := by
  have h := claim_C2_all_fail_batch (fun _ n => (Except.error n : Except Nat Nat))
    (fun _ n => n) 2 1 (fun _ => false) ["a", "b", "c"] (by decide)
    (fun _ _ => rfl) (fun _ => rfl) (by decide) (by decide)
  exact ⟨h.1, h.2.1.trans (by decide), h.2.2.1 "b" (by decide),
    h.2.2.2 "d" (by decide)⟩

/-- If the retry loop entered with an accumulated error returns no result,
its final `lastError` is still some error. -/
theorem retryFrom_none_lastError {β ε : Type} (outcome : Nat → Except ε β) :
    ∀ (rem attempt : Nat) (e₀ : ε),
      (retryFrom outcome attempt rem (some e₀)).1 = none →
      ∃ e, (retryFrom outcome attempt rem (some e₀)).2.1 = some e := by
  intro rem
  induction rem with
  | zero =>
    intro attempt e₀ _
    exact ⟨e₀, rfl⟩
  | succ rem ih =>
    intro attempt e₀ hres
    cases ho : outcome attempt with
    | ok r =>
      rw [show retryFrom outcome attempt (rem + 1) (some e₀) =
          (some r, some e₀, 1) by simp only [retryFrom, ho]] at hres
      exact Option.noConfusion hres
    | error e =>
      have hstep : retryFrom outcome attempt (rem + 1) (some e₀) =
          ((retryFrom outcome (attempt + 1) rem (some e)).1,
            (retryFrom outcome (attempt + 1) rem (some e)).2.1,
            (retryFrom outcome (attempt + 1) rem (some e)).2.2 + 1) := by
        simp only [retryFrom, ho]
      rw [hstep] at hres ⊢
      exact ih (attempt + 1) e hres

/-- Each URL a window processes ends up settled: present in the results map
or in the failure map (the playwright inner loop has no abort check, so with
`retries + 1 ≥ 1` iterations it either succeeds or accumulates an error). -/
theorem processUrl_settles {β ε : Type} (outcome : String → Nat → Except ε β)
    (retries : Nat) (ctx : BatchCtx β ε) (url : String) :
    mapGet (processUrl outcome retries ctx url).results url ≠ none
    ∨ mapGet (processUrl outcome retries ctx url).failed url ≠ none := by
  rcases hr : retryFrom (outcome url) 0 (retries + 1) none with ⟨res, lerr, n⟩
  cases res with
  | some v =>
    left
    have hp : (processUrl outcome retries ctx url).results =
        mapSet ctx.results url v := by
      simp only [processUrl, hr]
    rw [hp, mapGet_mapSet_self]
    exact fun hh => Option.noConfusion hh
  | none =>
    cases lerr with
    | some e =>
      right
      have hp : (processUrl outcome retries ctx url).failed =
          mapSet ctx.failed url e := by
        simp only [processUrl, hr]
      rw [hp, mapGet_mapSet_self]
      exact fun hh => Option.noConfusion hh
    | none =>
      exfalso
      cases ho : outcome url 0 with
      | ok r =>
        rw [show retryFrom (outcome url) 0 (retries + 1) none =
            (some r, none, 1) by simp only [retryFrom, ho]] at hr
        simp at hr
      | error e =>
        have hstep : retryFrom (outcome url) 0 (retries + 1) none =
            ((retryFrom (outcome url) 1 retries (some e)).1,
              (retryFrom (outcome url) 1 retries (some e)).2.1,
              (retryFrom (outcome url) 1 retries (some e)).2.2 + 1) := by
          simp only [retryFrom, ho]
        rw [hstep] at hr
        have h1 := congrArg (fun p => p.1) hr
        have h2 := congrArg (fun p => p.2.1) hr
        simp only at h1 h2
        obtain ⟨e', he'⟩ := retryFrom_none_lastError (outcome url) retries 1 e h1
        rw [h2] at he'
        exact Option.noConfusion he'

/-- Processing one URL leaves every other key of all three maps unchanged. -/
theorem processUrl_preserves_other {β ε : Type}
    (outcome : String → Nat → Except ε β) (retries : Nat) (ctx : BatchCtx β ε)
    (url u : String) (h : u ≠ url) :
    mapGet (processUrl outcome retries ctx url).results u = mapGet ctx.results u
    ∧ mapGet (processUrl outcome retries ctx url).failed u = mapGet ctx.failed u := by
  rcases hr : retryFrom (outcome url) 0 (retries + 1) none with ⟨res, lerr, n⟩
  cases res with
  | some v =>
    have hp : (processUrl outcome retries ctx url).results =
          mapSet ctx.results url v
        ∧ (processUrl outcome retries ctx url).failed = ctx.failed := by
      constructor <;> simp only [processUrl, hr]
    rw [hp.1, hp.2]
    exact ⟨mapGet_mapSet_ne ctx.results url u v h, rfl⟩
  | none =>
    cases lerr with
    | some e =>
      have hp : (processUrl outcome retries ctx url).results = ctx.results
          ∧ (processUrl outcome retries ctx url).failed =
            mapSet ctx.failed url e := by
        constructor <;> simp only [processUrl, hr]
      rw [hp.1, hp.2]
      exact ⟨rfl, mapGet_mapSet_ne ctx.failed url u e h⟩
    | none =>
      have hp : (processUrl outcome retries ctx url).results = ctx.results
          ∧ (processUrl outcome retries ctx url).failed = ctx.failed := by
        constructor <;> simp only [processUrl, hr]
      rw [hp.1, hp.2]
      exact ⟨rfl, rfl⟩

/-- Keys outside the processed URL list are untouched by the fold. -/
theorem foldl_processUrl_untouched {β ε : Type}
    (outcome : String → Nat → Except ε β) (retries : Nat) :
    ∀ (urls : List String) (ctx : BatchCtx β ε) (u : String), u ∉ urls →
      mapGet ((urls.foldl (processUrl outcome retries) ctx)).results u =
        mapGet ctx.results u
      ∧ mapGet ((urls.foldl (processUrl outcome retries) ctx)).failed u =
        mapGet ctx.failed u := by
  intro urls
  induction urls with
  | nil =>
    intro ctx u _
    exact ⟨rfl, rfl⟩
  | cons u₀ rest ih =>
    intro ctx u hu
    have hu₀ : u ≠ u₀ := fun hh => hu (by simp [hh])
    have hur : u ∉ rest := fun hh => hu (by simp [hh])
    rw [List.foldl_cons]
    obtain ⟨h1, h2⟩ := ih (processUrl outcome retries ctx u₀) u hur
    obtain ⟨h3, h4⟩ := processUrl_preserves_other outcome retries ctx u₀ u hu₀
    exact ⟨h1.trans h3, h2.trans h4⟩

/-- A key settled before the fold stays settled. -/
theorem foldl_processUrl_settled_mono {β ε : Type}
    (outcome : String → Nat → Except ε β) (retries : Nat) :
    ∀ (urls : List String) (ctx : BatchCtx β ε) (u : String),
      (mapGet ctx.results u ≠ none ∨ mapGet ctx.failed u ≠ none) →
      (mapGet ((urls.foldl (processUrl outcome retries) ctx)).results u ≠ none
        ∨ mapGet ((urls.foldl (processUrl outcome retries) ctx)).failed u ≠ none) := by
  intro urls
  induction urls with
  | nil =>
    intro ctx u h
    exact h
  | cons u₀ rest ih =>
    intro ctx u h
    rw [List.foldl_cons]
    refine ih (processUrl outcome retries ctx u₀) u ?_
    by_cases hu₀ : u = u₀
    · subst hu₀
      exact processUrl_settles outcome retries ctx u
    · obtain ⟨h1, h2⟩ := processUrl_preserves_other outcome retries ctx u₀ u hu₀
      rw [h1, h2]
      exact h
/-- Every member of the processed URL list ends up settled. -/
theorem foldl_processUrl_settles_mem {β ε : Type}
    (outcome : String → Nat → Except ε β) (retries : Nat) :
    ∀ (urls : List String) (ctx : BatchCtx β ε) (u : String), u ∈ urls →
      (mapGet ((urls.foldl (processUrl outcome retries) ctx)).results u ≠ none
        ∨ mapGet ((urls.foldl (processUrl outcome retries) ctx)).failed u ≠ none) := by
  intro urls
  induction urls with
  | nil =>
    intro ctx u hu
    exact absurd hu (by simp)
  | cons u₀ rest ih =>
    intro ctx u hu
    rw [List.foldl_cons]
    by_cases hur : u ∈ rest
    · exact ih (processUrl outcome retries ctx u₀) u hur
    · have hu₀ : u = u₀ := by
        rcases List.mem_cons.mp hu with h | h
        · exact h
        · exact absurd h hur
      subst hu₀
      exact foldl_processUrl_settled_mono outcome retries rest
        (processUrl outcome retries ctx u) u
        (processUrl_settles outcome retries ctx u)

/-- C3.  A batch whose cancellation signal is aborted before any window
starts returns zero results and zero failures; in general, an abort first
observed at the top of window `j` means exactly the windows before `j` ran:
the final state is the fold over those windows' URLs, every URL of a started
window is settled in the results or failure map, and every URL only in later
windows appears in neither map. -/
theorem claim_C3_cancellation_window_boundary {β ε : Type}
    (outcome : String → Nat → Except ε β) (concurrency retries : Nat)
    (aborted : Nat → Bool) (urls : List String) (j : Nat)
    (hc : 1 ≤ concurrency) :
    (aborted 0 = true →
      scrapeMany outcome concurrency retries aborted urls ⟨[], [], []⟩ =
        ⟨[], [], []⟩)
    ∧ ((∀ i, i < j → aborted i = false) → aborted j = true →
        scrapeMany outcome concurrency retries aborted urls ⟨[], [], []⟩ =
          ((chunks concurrency urls).take j).flatten.foldl
            (processUrl outcome retries) ⟨[], [], []⟩
        ∧ (∀ u, u ∈ ((chunks concurrency urls).take j).flatten →
            mapGet (scrapeMany outcome concurrency retries aborted urls
              ⟨[], [], []⟩).results u ≠ none
            ∨ mapGet (scrapeMany outcome concurrency retries aborted urls
              ⟨[], [], []⟩).failed u ≠ none)
        ∧ (∀ u, u ∉ ((chunks concurrency urls).take j).flatten →
            mapGet (scrapeMany outcome concurrency retries aborted urls
              ⟨[], [], []⟩).results u = none
            ∧ mapGet (scrapeMany outcome concurrency retries aborted urls
              ⟨[], [], []⟩).failed u = none)) := by
  constructor
  · intro h0
    unfold scrapeMany
    cases chunks concurrency urls with
    | nil => rfl
    | cons w rest => simp only [runWindows, if_pos h0]
  · intro hfalse htrue
    have hstop := runWindows_stops
      (fun w st => w.foldl (processUrl outcome retries) st) aborted
      (chunks concurrency urls) j 0 ⟨[], [], []⟩
      (fun i' hi' => by simpa using hfalse i' hi') (by simpa using htrue)
    have hfold : scrapeMany outcome concurrency retries aborted urls
        ⟨[], [], []⟩ =
        ((chunks concurrency urls).take j).flatten.foldl
          (processUrl outcome retries) ⟨[], [], []⟩ := by
      unfold scrapeMany
      rw [hstop, List.foldl_flatten]
    refine ⟨hfold, ?_, ?_⟩
    · intro u hu
      rw [hfold]
      exact foldl_processUrl_settles_mem outcome retries _ _ u hu
    · intro u hu
      rw [hfold]
      exact foldl_processUrl_untouched outcome retries _ _ u hu

/-- Witness for C3: an already-aborted batch of three targets yields empty
maps, and a batch of four targets at concurrency 2 whose signal aborts from
window 1 onward settles exactly the first window's two targets. -/
theorem claim_C3_cancellation_window_boundary_witness :
    (scrapeMany (fun _ n => (Except.error n : Except Nat Nat)) 2 1
      (fun _ => true) ["a", "b", "c"] ⟨[], [], []⟩ = ⟨[], [], []⟩)
    ∧ (mapGet (scrapeMany (fun _ n => (Except.error n : Except Nat Nat)) 2 1
        (fun i => decide (1 ≤ i)) ["a", "b", "c", "d"] ⟨[], [], []⟩).results "a"
        ≠ none
      ∨ mapGet (scrapeMany (fun _ n => (Except.error n : Except Nat Nat)) 2 1
        (fun i => decide (1 ≤ i)) ["a", "b", "c", "d"] ⟨[], [], []⟩).failed "a"
        ≠ none)
    ∧ (mapGet (scrapeMany (fun _ n => (Except.error n : Except Nat Nat)) 2 1
        (fun i => decide (1 ≤ i)) ["a", "b", "c", "d"] ⟨[], [], []⟩).results "c"
        = none
      ∧ mapGet (scrapeMany (fun _ n => (Except.error n : Except Nat Nat)) 2 1
        (fun i => decide (1 ≤ i)) ["a", "b", "c", "d"] ⟨[], [], []⟩).failed "c"
        = none) := by
  have ha := (claim_C3_cancellation_window_boundary
    (fun _ n => (Except.error n : Except Nat Nat)) 2 1 (fun _ => true)
    ["a", "b", "c"] 0 (by decide)).1 rfl
  have hb := (claim_C3_cancellation_window_boundary
    (fun _ n => (Except.error n : Except Nat Nat)) 2 1
    (fun i => decide (1 ≤ i)) ["a", "b", "c", "d"] 1 (by decide)).2
    (by decide) (by decide)
  exact ⟨ha, hb.2.1 "a" (by decide), hb.2.2 "c" (by decide)⟩

/-! ## Claim theorem: eviction of the oldest 10% (C8) -/

theorem mapGet_some_of_mem_keys {κ β : Type} [DecidableEq κ]
    (l : List (κ × β)) (k : κ) (h : k ∈ mapKeys l) :
    ∃ v, mapGet l k = some v := by
  induction l with
  | nil => exact absurd h (by simp [mapKeys])
  | cons p rest ih =>
    obtain ⟨k₀, v₀⟩ := p
    by_cases h₀ : k₀ = k
    · exact ⟨v₀, by simp only [mapGet, if_pos h₀]⟩
    · have hr : k ∈ mapKeys rest := by
        simp only [mapKeys, List.map_cons, List.mem_cons] at h
        rcases h with h | h
        · exact absurd h.symm h₀
        · exact h
      obtain ⟨v, hv⟩ := ih hr
      exact ⟨v, by simp only [mapGet, if_neg h₀, hv]⟩

theorem mem_of_mapGet_eq_some {κ β : Type} [DecidableEq κ]
    (l : List (κ × β)) (k : κ) (v : β) (h : mapGet l k = some v) :
    (k, v) ∈ l := by
  induction l with
  | nil => exact Option.noConfusion h
  | cons p rest ih =>
    obtain ⟨k₀, v₀⟩ := p
    by_cases h₀ : k₀ = k
    · simp only [mapGet, if_pos h₀] at h
      subst h₀
      injection h with h
      subst h
      exact List.mem_cons_self _ _
    · simp only [mapGet, if_neg h₀] at h
      exact List.mem_cons_of_mem _ (ih h)

theorem mem_keys_mapDelete_of_ne {κ β : Type} [DecidableEq κ]
    (l : List (κ × β)) (k k' : κ) (hne : k' ≠ k) (h : k' ∈ mapKeys l) :
    k' ∈ mapKeys (mapDelete l k) := by
  obtain ⟨v, hv⟩ := mapGet_some_of_mem_keys l k' h
  have : mapGet (mapDelete l k) k' = some v := by
    rw [mapGet_mapDelete_ne l k k' hne]
    exact hv
  exact mem_keys_of_mapGet_eq_some _ k' v this

theorem mapGet_foldl_mapDelete {κ β : Type} [DecidableEq κ] :
    ∀ (ks : List κ) (l : List (κ × β)) (k' : κ), MapWF l →
      mapGet (ks.foldl (fun es k => mapDelete es k) l) k' =
        if k' ∈ ks then none else mapGet l k' := by
  intro ks
  induction ks with
  | nil =>
    intro l k' _
    simp
  | cons k ks ih =>
    intro l k' hwf
    rw [List.foldl_cons, ih (mapDelete l k) k' (mapWF_mapDelete l k hwf)]
    by_cases hks : k' ∈ ks
    · simp [hks]
    · by_cases hkk : k' = k
      · subst hkk
        simp only [hks, if_neg hks, List.mem_cons, true_or, if_pos]
        exact mapGet_mapDelete_self l k' hwf
      · have : k' ∉ (k :: ks) := by
          simp [hkk, hks]
        simp only [if_neg hks, if_neg this]
        exact mapGet_mapDelete_ne l k k' hkk

theorem length_foldl_mapDelete {κ β : Type} [DecidableEq κ] :
    ∀ (ks : List κ) (l : List (κ × β)), MapWF l → ks.Nodup →
      (∀ x, x ∈ ks → x ∈ mapKeys l) →
      (ks.foldl (fun es k => mapDelete es k) l).length + ks.length = l.length := by
  intro ks
  induction ks with
  | nil =>
    intro l _ _ _
    simp
  | cons k ks ih =>
    intro l hwf hnd hmem
    obtain ⟨v, hv⟩ := mapGet_some_of_mem_keys l k (hmem k (by simp))
    have hdel : (mapDelete l k).length + 1 = l.length :=
      length_mapDelete_of_mem l k v hv
    have hnd' : ks.Nodup := (List.nodup_cons.mp hnd).2
    have hkks : k ∉ ks := (List.nodup_cons.mp hnd).1
    have hmem' : ∀ x, x ∈ ks → x ∈ mapKeys (mapDelete l k) := by
      intro x hx
      have hxk : x ≠ k := fun hh => hkks (hh ▸ hx)
      exact mem_keys_mapDelete_of_ne l k x hxk (hmem x (by simp [hx]))
    have := ih (mapDelete l k) (mapWF_mapDelete l k hwf) hnd' hmem'
    rw [List.foldl_cons]
    simp only [List.length_cons]
    omega

instance {β : Type} : IsTotal (String × CacheEntry β) (tsLE (β := β)) :=
  ⟨fun a b => Nat.le_total a.2.timestamp b.2.timestamp⟩

instance {β : Type} : IsTrans (String × CacheEntry β) (tsLE (β := β)) :=
  ⟨fun _ _ _ hab hbc => le_trans hab hbc⟩

/-- C8.  At capacity (entry count ≥ `maxSize`, capacity positive), `set` of
a fresh key first evicts exactly `max(1, ⌊maxSize/10⌋)` entries — precisely
the entries with the oldest insertion timestamps (every evicted entry's
timestamp is ≤ every survivor's) — and then inserts the new entry: the entry
count changes by `1 - evictCount`, the new key maps to the new entry, every
other key reads as before unless evicted, the evicted keys number exactly
`evictCount` and all existed in the cache.  (`Math.floor(maxSize * 0.1)`
equals `maxSize / 10` in natural division for the sizes at hand.) -/
theorem claim_C8_eviction_oldest_ten_percent {β : Type} (c : LruCache β)
    (k : String) (e : CacheEntry β) (hwf : MapWF c.entries)
    (hcap : c.entries.length ≥ c.maxSize) (hpos : 1 ≤ c.maxSize)
    (hfresh : mapGet c.entries k = none) :
    (c.set k e).entries.length + c.evictCount = c.entries.length + 1
    ∧ c.evictCount = max 1 (c.maxSize / 10)
    ∧ mapGet (c.set k e).entries k = some e
    ∧ (∀ k', k' ≠ k →
        mapGet (c.set k e).entries k' =
          if k' ∈ c.evictedKeys then none else mapGet c.entries k')
    ∧ c.evictedKeys.length = c.evictCount
    ∧ (∀ k', k' ∈ c.evictedKeys → ∃ v, mapGet c.entries k' = some v)
    ∧ (∀ k₁, k₁ ∈ c.evictedKeys → ∀ k₂, k₂ ∉ c.evictedKeys →
        ∀ e₁ e₂, mapGet c.entries k₁ = some e₁ →
          mapGet c.entries k₂ = some e₂ →
          e₁.timestamp ≤ e₂.timestamp) := by
  have hperm : (List.insertionSort tsLE c.entries).Perm c.entries :=
    List.perm_insertionSort tsLE c.entries
  have hslen : (List.insertionSort tsLE c.entries).length = c.entries.length :=
    hperm.length_eq
  have hswf : MapWF (List.insertionSort tsLE c.entries) := by
    unfold MapWF mapKeys
    exact ((hperm.map Prod.fst).nodup_iff).mpr hwf
  have hcount : c.evictCount ≤ c.entries.length := by
    have hd : c.maxSize / 10 ≤ c.maxSize := Nat.div_le_self _ _
    unfold LruCache.evictCount
    omega
  have heklen : c.evictedKeys.length = c.evictCount := by
    unfold LruCache.evictedKeys mapKeys
    rw [List.length_map, List.length_take, hslen]
    omega
  have heknd : c.evictedKeys.Nodup := by
    unfold LruCache.evictedKeys mapKeys
    rw [List.map_take]
    exact List.Sublist.nodup (List.take_sublist _ _) hswf
  have hekmem : ∀ k', k' ∈ c.evictedKeys → k' ∈ mapKeys c.entries := by
    intro k' hk'
    unfold LruCache.evictedKeys mapKeys at hk'
    obtain ⟨p, hp, hpk⟩ := List.mem_map.mp hk'
    have hps : p ∈ List.insertionSort tsLE c.entries :=
      List.mem_of_mem_take hp
    have hpe : p ∈ c.entries := hperm.mem_iff.mp hps
    exact List.mem_map.mpr ⟨p, hpe, hpk⟩
  have hset : (c.set k e).entries =
      mapSet (c.evictedKeys.foldl (fun es k => mapDelete es k) c.entries) k e := by
    simp only [LruCache.set, if_pos hcap, LruCache.evict]
  have hDget : ∀ k',
      mapGet (c.evictedKeys.foldl (fun es k => mapDelete es k) c.entries) k' =
        if k' ∈ c.evictedKeys then none else mapGet c.entries k' :=
    fun k' => mapGet_foldl_mapDelete c.evictedKeys c.entries k' hwf
  have hDfresh :
      mapGet (c.evictedKeys.foldl (fun es k => mapDelete es k) c.entries) k =
        none := by
    rw [hDget k]
    by_cases hk : k ∈ c.evictedKeys
    · simp [hk]
    · simp [hk, hfresh]
  have hDlen :
      (c.evictedKeys.foldl (fun es k => mapDelete es k) c.entries).length +
        c.evictedKeys.length = c.entries.length :=
    length_foldl_mapDelete c.evictedKeys c.entries hwf heknd hekmem
  refine ⟨?_, rfl, ?_, ?_, heklen, ?_, ?_⟩
  · rw [hset, length_mapSet_of_not_mem _ k e hDfresh]
    omega
  · rw [hset, mapGet_mapSet_self]
  · intro k' hk'
    rw [hset, mapGet_mapSet_ne _ k k' e hk', hDget k']
  · intro k' hk'
    exact mapGet_some_of_mem_keys c.entries k' (hekmem k' hk')
  · intro k₁ hk₁ k₂ hk₂ e₁ e₂ he₁ he₂
    have hsorted : List.Pairwise (fun a b => tsLE a b)
        (List.insertionSort tsLE c.entries) :=
      List.sorted_insertionSort tsLE c.entries
    have hsplit : List.insertionSort tsLE c.entries =
        (List.insertionSort tsLE c.entries).take c.evictCount ++
          (List.insertionSort tsLE c.entries).drop c.evictCount :=
      (List.take_append_drop _ _).symm
    have hpair := (List.pairwise_append.mp (hsplit ▸ hsorted)).2.2
    have hnd2 : (mapKeys ((List.insertionSort tsLE c.entries).take
          c.evictCount) ++ mapKeys ((List.insertionSort tsLE
          c.entries).drop c.evictCount)).Nodup := by
      unfold MapWF at hswf
      rw [hsplit] at hswf
      simpa [mapKeys] using hswf
    have hdisj := (List.nodup_append.mp hnd2).2.2
    have hk₁' : k₁ ∈ mapKeys ((List.insertionSort tsLE c.entries).take
        c.evictCount) := hk₁
    have hk₂' : k₂ ∉ mapKeys ((List.insertionSort tsLE c.entries).take
        c.evictCount) := hk₂
    have hin₁ : (k₁, e₁) ∈ List.insertionSort tsLE c.entries :=
      hperm.mem_iff.mpr (mem_of_mapGet_eq_some c.entries k₁ e₁ he₁)
    have hin₂ : (k₂, e₂) ∈ List.insertionSort tsLE c.entries :=
      hperm.mem_iff.mpr (mem_of_mapGet_eq_some c.entries k₂ e₂ he₂)
    rw [hsplit] at hin₁ hin₂
    have htake₁ : (k₁, e₁) ∈ (List.insertionSort tsLE c.entries).take
        c.evictCount := by
      rcases List.mem_append.mp hin₁ with h | h
      · exact h
      · exact absurd (List.mem_map.mpr ⟨(k₁, e₁), h, rfl⟩) (fun hc =>
          hdisj hk₁' hc)
    have hdrop₂ : (k₂, e₂) ∈ (List.insertionSort tsLE c.entries).drop
        c.evictCount := by
      rcases List.mem_append.mp hin₂ with h | h
      · exact absurd (List.mem_map.mpr ⟨(k₂, e₂), h, rfl⟩) hk₂'
      · exact h
    exact hpair (k₁, e₁) htake₁ (k₂, e₂) hdrop₂

/-- Witness for C8: a full capacity-3 cache (evict count `max 1 ⌊3/10⌋ = 1`)
holding timestamps 30, 10, 20; inserting a fresh key grows the count by
`1 - 1`, the new key reads back, and the oldest entry ("b", timestamp 10) is
the evicted one while "a" survives. -/
theorem claim_C8_eviction_oldest_ten_percent_witness :
    ((⟨[("a", ⟨1, 30, none, none⟩), ("b", ⟨2, 10, none, none⟩),
        ("c", ⟨3, 20, none, none⟩)], 3, 1000⟩ : LruCache Nat).set "d"
        ⟨4, 40, none, none⟩).entries.length +
      (⟨[("a", ⟨1, 30, none, none⟩), ("b", ⟨2, 10, none, none⟩),
        ("c", ⟨3, 20, none, none⟩)], 3, 1000⟩ : LruCache Nat).evictCount = 3 + 1
    ∧ mapGet ((⟨[("a", ⟨1, 30, none, none⟩), ("b", ⟨2, 10, none, none⟩),
        ("c", ⟨3, 20, none, none⟩)], 3, 1000⟩ : LruCache Nat).set "d"
        ⟨4, 40, none, none⟩).entries "d" = some ⟨4, 40, none, none⟩
    ∧ mapGet ((⟨[("a", ⟨1, 30, none, none⟩), ("b", ⟨2, 10, none, none⟩),
        ("c", ⟨3, 20, none, none⟩)], 3, 1000⟩ : LruCache Nat).set "d"
        ⟨4, 40, none, none⟩).entries "b" =
      (if "b" ∈ (⟨[("a", ⟨1, 30, none, none⟩), ("b", ⟨2, 10, none, none⟩),
        ("c", ⟨3, 20, none, none⟩)], 3, 1000⟩ : LruCache Nat).evictedKeys
        then none
        else mapGet [("a", ⟨1, 30, none, none⟩), ("b", ⟨2, 10, none, none⟩),
          ("c", ⟨3, 20, none, none⟩)] "b") := by
  have h := claim_C8_eviction_oldest_ten_percent
    (⟨[("a", ⟨1, 30, none, none⟩), ("b", ⟨2, 10, none, none⟩),
      ("c", ⟨3, 20, none, none⟩)], 3, 1000⟩ : LruCache Nat) "d"
    ⟨4, 40, none, none⟩ (by decide) (by decide) (by decide) (by decide)
  exact ⟨h.1, h.2.2.1, h.2.2.2.1 "b" (by decide)⟩

end OneCrawl
